import Mathlib

set_option maxRecDepth 8000

/-!
Verification of the description-generation pipeline of this repository
(`generate_descriptions.py`, with the run-start validation of `app.py`).

The Python code is shallowly embedded: strings are Lean `String`s, rows are
`List String`, the spreadsheet is a `List (List String)`, and the external
collaborators (the Groq streaming client, the OpenRouter HTTP call, the
`gspread` cell writes) are abstracted as oracles describing the outcome of
each call.  Timing effects (`time.sleep`, latency bookeeping) and logging
are not modelled: they do not influence any value or state transition.
-/

namespace GenDesc

/-! ## Definitions: the shallow embedding -/

deriving instance DecidableEq for Except

/-- The whitespace characters of Python's `str.strip()` (the ASCII ones;
the texts handled by this program contain no exotic Unicode spaces). -/
def isPySpace (c : Char) : Bool :=
  c = ' ' || c = '\t' || c = '\n' || c = '\r' || c = '\x0b' || c = '\x0c'

/-- Python `str.strip()` on a character list: drop whitespace from both ends. -/
def stripChars (l : List Char) : List Char :=
  ((l.dropWhile isPySpace).reverse.dropWhile isPySpace).reverse

/-- Python `str.strip()`. -/
def pyStrip (s : String) : String :=
  String.mk (stripChars s.data)

/-- Python `str.removeprefix`. -/
def removePrefixIf (s p : String) : String :=
  if s.startsWith p then s.drop p.length else s

/-- Python `str.removesuffix`. -/
def removeSuffixIf (s p : String) : String :=
  if s.endsWith p then s.dropRight p.length else s

/-- The character allow-list of `_is_valid_text`'s regular expression
`[А-Яа-яЁёĄąĆćĘęŁłŃńÓóŚśŹźŻż]`: Cyrillic А-Я (0x410-0x42F) and а-я
(0x430-0x44F) are contiguous code points, Ё/ё and the Polish letters are
listed one by one. -/
def isAllowListedChar (c : Char) : Bool :=
  (0x410 ≤ c.toNat && c.toNat ≤ 0x44F)
  || c = 'Ё' || c = 'ё'
  || c = 'Ą' || c = 'ą' || c = 'Ć' || c = 'ć' || c = 'Ę' || c = 'ę'
  || c = 'Ł' || c = 'ł' || c = 'Ń' || c = 'ń' || c = 'Ó' || c = 'ó'
  || c = 'Ś' || c = 'ś' || c = 'Ź' || c = 'ź' || c = 'Ż' || c = 'ż'

/-- `DescriptionGenerator._is_valid_text`: reject empty or whitespace-only
text; accept on an allow-listed character anywhere in the (unstripped) text,
or on stripped length greater than 10. -/
def is_valid_text (text : String) : Bool :=
  if text = "" || pyStrip text = "" then false
  else text.data.any isAllowListedChar || decide ((pyStrip text).length > 10)

/-- A 20-character string made of spaces only. -/
def twentySpaces : String := "                    "

inductive FmtError
  | keyError
  | valueError

deriving DecidableEq

inductive FmtMode
  | text : FmtMode
  | field : List Char → FmtMode

/-- The key of a replacement field: the field name up to a conversion or
format-spec marker. -/
def keyOf (fld : List Char) : List Char :=
  fld.takeWhile (fun c => c ≠ '!' && c ≠ ':')

/-- Keyword-argument lookup (first match; the callers pass distinct keys). -/
def lookupStr : List (String × String) → String → Option String
  | [], _ => none
  | (k, v) :: rest, key => if k = key then some v else lookupStr rest key

/-- The scanner of `pyFormat`: `text` mode copies characters, `field` mode
accumulates a replacement-field name until its closing brace. -/
def fmtGo (fields : List (String × String)) : FmtMode → List Char → Except FmtError (List Char)
  | .text, [] => .ok []
  | .text, c :: rest =>
      if c = '{' then
        match rest with
        | c2 :: rest2 =>
            if c2 = '{' then (fmtGo fields .text rest2).map (fun t => '{' :: t)
            else fmtGo fields (.field []) (c2 :: rest2)
        | [] => .error .valueError
      else if c = '}' then
        match rest with
        | c2 :: rest2 =>
            if c2 = '}' then (fmtGo fields .text rest2).map (fun t => '}' :: t)
            else .error .valueError
        | [] => .error .valueError
      else (fmtGo fields .text rest).map (fun t => c :: t)
  | .field _, [] => .error .valueError
  | .field acc, c :: rest =>
      if c = '}' then
        let key := keyOf acc.reverse
        if key.isEmpty then .error .valueError
        else
          match lookupStr fields (String.mk key) with
          | some v => (fmtGo fields .text rest).map (fun t => v.data ++ t)
          | none => .error .keyError
      else if c = '{' then .error .valueError
      else fmtGo fields (.field (c :: acc)) rest

/-- Python `template.format(key=value, ...)` restricted to string keyword
arguments, as the builder calls it. -/
def pyFormat (tmpl : String) (fields : List (String × String)) : Except FmtError String :=
  (fmtGo fields .text tmpl.data).map String.mk

/-- The module constant `PROMPT_TEMPLATE_WITH_ARTICLE`. -/
def PROMPT_TEMPLATE_WITH_ARTICLE : String :=
  "Ты специалист по автозапчастям и маркетолог. Используй данные:\n- Артикул: {article}\n- Наименование: {name}\n\nЗадача:\n1. Напиши структурированное HTML-описание (h2/h3/p/ul/li/strong) на русском языке.\n2. Сделай акцент на назначении запчасти, преимуществах, совместимости и установке.\n3. Укажи артикул и ключевые выгоды.\n4. Объём 90–140 слов. Не добавляй произвольные цены и ссылки.\n"

/-- The module constant `PROMPT_TEMPLATE_WITHOUT_ARTICLE`. -/
def PROMPT_TEMPLATE_WITHOUT_ARTICLE : String :=
  "Ты специалист по автозапчастям и маркетолог. Используй данные:\n- Наименование: {name}\n\nЗадача:\n1. Напиши структурированное HTML-описание (h2/h3/p/ul/li/strong) на русском языке.\n2. Сделай акцент на назначении запчасти, преимуществах, совместимости и установке.\n3. Укажи ключевые выгоды.\n4. Объём 90–140 слов. Не добавляй произвольные цены и ссылки.\n"

/-- `DescriptionGenerator._build_prompt`: substitute into the caller template
when one is given (a `KeyError` falls back to the unmodified template, any
other substitution error propagates), else select a built-in template on
whether the article is present. -/
def build_prompt (custom_prompt : Option String) (article name : String) : Except FmtError String :=
  match custom_prompt with
  | some tmpl =>
      if article ≠ "" ∧ pyStrip article ≠ "" then
        match pyFormat tmpl [("article", pyStrip article), ("name", pyStrip name)] with
        | .ok s => .ok s
        | .error .keyError => .ok tmpl
        | .error .valueError => .error .valueError
      else
        match pyFormat tmpl [("name", pyStrip name)] with
        | .ok s => .ok s
        | .error .keyError => .ok tmpl
        | .error .valueError => .error .valueError
  | none =>
      if article ≠ "" ∧ pyStrip article ≠ "" then
        pyFormat PROMPT_TEMPLATE_WITH_ARTICLE
          [("article", pyStrip article), ("name", pyStrip name)]
      else
        pyFormat PROMPT_TEMPLATE_WITHOUT_ARTICLE [("name", pyStrip name)]

/-- The with-article template up to its `article` placeholder. -/
def tmplHead : String := "Ты специалист по автозапчастям и маркетолог. Используй данные:\n- Артикул: "

/-- The with-article template between its two placeholders. -/
def tmplMidA : String := "\n- Наименование: "

/-- The with-article template after its `name` placeholder. -/
def tmplTailA : String := "\n\nЗадача:\n1. Напиши структурированное HTML-описание (h2/h3/p/ul/li/strong) на русском языке.\n2. Сделай акцент на назначении запчасти, преимуществах, совместимости и установке.\n3. Укажи артикул и ключевые выгоды.\n4. Объём 90–140 слов. Не добавляй произвольные цены и ссылки.\n"

/-- The without-article template up to its `name` placeholder. -/
def tmplHeadNA : String := "Ты специалист по автозапчастям и маркетолог. Используй данные:\n- Наименование: "

/-- The without-article template after its `name` placeholder. -/
def tmplTailNA : String := "\n\nЗадача:\n1. Напиши структурированное HTML-описание (h2/h3/p/ul/li/strong) на русском языке.\n2. Сделай акцент на назначении запчасти, преимуществах, совместимости и установке.\n3. Укажи ключевые выгоды.\n4. Объём 90–140 слов. Не добавляй произвольные цены и ссылки.\n"

/-- Assignment into a Python dict: an existing key is overwritten in place,
a new key is appended. -/
def insertOverwrite : List (String × Nat) → String → Nat → List (String × Nat)
  | [], k, v => [(k, v)]
  | (k0, v0) :: rest, k, v =>
      if k0 = k then (k0, v) :: rest else (k0, v0) :: insertOverwrite rest k v

/-- Python `dict.get`. -/
def dictGet : List (String × Nat) → String → Option Nat
  | [], _ => none
  | (k0, v0) :: rest, k => if k0 = k then some v0 else dictGet rest k

/-- The comprehension loop: for each header cell at 0-based index `i`,
assign `strip(cell) ↦ i + 1`. -/
def headerDictAux : List String → Nat → List (String × Nat) → List (String × Nat)
  | [], _, m => m
  | s :: rest, i, m => headerDictAux rest (i + 1) (insertOverwrite m (pyStrip s) (i + 1))

/-- The resolver's `header_map` for a header row. -/
def header_map (header : List String) : List (String × Nat) :=
  headerDictAux header 0 []

/-- `header_map.get(column_name)`: how `_resolve_columns` resolves the
article, name and description columns. -/
def headerLookup (header : List String) (key : String) : Option Nat :=
  dictGet (header_map header) key

/-- Stated from the claim's words: the 1-based position of the FIRST header
cell whose trimmed text equals the configured name. -/
def firstMatchIdx (header : List String) (key : String) : Option Nat :=
  (header.findIdx? (fun s => pyStrip s = key)).map (fun j => j + 1)

/-- Stated from the amended claim's words, as a scan: the 1-based position
of the LAST header cell (from position `i` on) whose trimmed text equals the
configured name. -/
def lastMatchFrom : List String → String → Nat → Option Nat
  | [], _, _ => none
  | s :: rest, key, i =>
      match lastMatchFrom rest key (i + 1) with
      | some j => some j
      | none => if pyStrip s = key then some i else none

/-- The 1-based position of the last matching header cell. -/
def lastMatchIdx (header : List String) (key : String) : Option Nat :=
  lastMatchFrom header key 1

inductive PrimaryOutcome
  | text (s : String)
  | transientError
  | otherError

/-- Outcome of the single OpenRouter request of `_generate_with_openrouter`:
the API key may be absent, `requests.post` may raise, or a response arrives
with a status code and the contents of its `choices` list. -/
inductive SecondaryOutcome
  | missingKey
  | requestError
  | response (status : Nat) (choices : List String)

/-- The `RuntimeError` reasons a terminal generation failure can carry. -/
inductive GenErr
  | openrouterMissingKey
  | openrouterRequest
  | openrouterStatus
  | openrouterEmpty
  | openrouterInvalid
  | noLLMResponse

deriving DecidableEq

/-- Lines 317-319 and 409-410: strip the text, remove a wrapping code-fence
marker, strip again. -/
def cleanResponse (s : String) : String :=
  pyStrip (removeSuffixIf (removePrefixIf (pyStrip s) "```html") "```")

/-- Line 258: the ordered primary-provider model list. -/
def models : List String :=
  ["openai/gpt-oss-120b", "openai/gpt-oss-20b", "llama-3.3-70b-versatile"]

/-- The attempt loop for one model: `remaining` attempts are left and the
next attempt number is `a`.  Returns the validated text (or none) and the
log of primary calls made, as (model index, attempt) pairs. -/
def tryAttempts (primary : Nat → Nat → PrimaryOutcome) (m : Nat) :
    Nat → Nat → Option String × List (Nat × Nat)
  | 0, _ => (none, [])
  | remaining + 1, a =>
      match primary m a with
      | .text s =>
          let t := cleanResponse s
          ((if t = "" || !is_valid_text t then none else some t), [(m, a)])
      | .transientError =>
          let r := tryAttempts primary m remaining (a + 1)
          (r.1, (m, a) :: r.2)
      | .otherError => (none, [(m, a)])

/-- `DescriptionGenerator._generate_with_openrouter`. -/
def runOpenrouter (secondary : SecondaryOutcome) : Except GenErr String :=
  match secondary with
  | .missingKey => .error .openrouterMissingKey
  | .requestError => .error .openrouterRequest
  | .response status choices =>
      if status ≥ 400 then .error .openrouterStatus
      else
        match choices with
        | [] => .error .openrouterEmpty
        | content :: _ =>
            let t := cleanResponse content
            if t = "" || !is_valid_text t then .error .openrouterInvalid
            else .ok t

/-- The model loop of `_generate_description`: `m` is the index of the
current model, the list argument the models still to try.  The last model
falls back to OpenRouter; the final `raise` of line 349 is reachable only
with an empty model list. -/
def runModels (primary : Nat → Nat → PrimaryOutcome) (secondary : SecondaryOutcome)
    (maxRetries : Nat) : List String → Nat → Except GenErr String × List (Nat × Nat)
  | [], _ => (.error .noLLMResponse, [])
  | _model :: rest, m =>
      match tryAttempts primary m maxRetries 1 with
      | (some t, log) => (.ok t, log)
      | (none, log) =>
          match rest with
          | [] => (runOpenrouter secondary, log)
          | _ :: _ =>
              let r := runModels primary secondary maxRetries rest (m + 1)
              (r.1, log ++ r.2)

/-- `DescriptionGenerator._generate_description`, returning the result and
the log of primary-provider calls. -/
def generate_description (primary : Nat → Nat → PrimaryOutcome)
    (secondary : SecondaryOutcome) (maxRetries : Nat) :
    Except GenErr String × List (Nat × Nat) :=
  runModels primary secondary maxRetries models 0

/-- A valid (Cyrillic, fence-free, already stripped) secondary answer. -/
def okSecondaryText : String := "Надёжная запчасть для вашего автомобиля"

/-- A valid answer attributed to the second model. -/
def modelTwoText : String := "Описание от второй модели"

structure SheetColumns where
  article : Option Nat
  name : Nat
  description : Nat

deriving DecidableEq

/-- `row[col - 1].strip() if len(row) >= col else ""` for a 1-based column
index (the resolver produces indices ≥ 1). -/
def readCell (row : List String) (col : Nat) : String :=
  if col ≤ row.length then pyStrip (row.getD (col - 1) "") else ""

/-- Lines 435-437: the article cell is read only when an article column was
resolved (`if self.columns.article:`, Python truthiness). -/
def readArticle (cols : SheetColumns) (row : List String) : String :=
  match cols.article with
  | some c => if c ≠ 0 then readCell row c else ""
  | none => ""

/-- `if end_row and idx > end_row: break` — `None` and `0` are falsy. -/
def endCheckB (endRow : Option Nat) (idx : Nat) : Bool :=
  match endRow with
  | some e => decide (e ≠ 0 ∧ e < idx)
  | none => false

/-- `if limit and processed >= limit: break`. -/
def limitHitB (limit : Option Nat) (processed : Nat) : Bool :=
  match limit with
  | some l => decide (l ≠ 0 ∧ l ≤ processed)
  | none => false

/-- Result of a run: the returned count, the rows that reached generation,
and the successful cell writes (row, text) in order. -/
structure ProcResult where
  processed : Nat
  attempts : List Nat
  writes : List (Nat × String)

deriving DecidableEq

/-- The row loop of `process`, from row index `idx` with `p` rows already
counted. -/
def processGo (cols : SheetColumns) (force dryRun : Bool)
    (gen : String → String → Except GenErr String) (writeOk : Nat → Bool)
    (startRow : Nat) (endRow : Option Nat) (limit : Option Nat) :
    Nat → List (List String) → Nat → ProcResult
  | _, [], p => ⟨p, [], []⟩
  | idx, row :: rest, p =>
      if idx < startRow then
        processGo cols force dryRun gen writeOk startRow endRow limit (idx + 1) rest p
      else if endCheckB endRow idx then ⟨p, [], []⟩
      else
        let article := readArticle cols row
        let nameV := readCell row cols.name
        let descV := readCell row cols.description
        if nameV = "" then
          processGo cols force dryRun gen writeOk startRow endRow limit (idx + 1) rest p
        else if descV ≠ "" ∧ force = false then
          processGo cols force dryRun gen writeOk startRow endRow limit (idx + 1) rest p
        else
          match gen article nameV with
          | .error _ =>
              let r := processGo cols force dryRun gen writeOk startRow endRow limit (idx + 1) rest p
              ⟨r.processed, idx :: r.attempts, r.writes⟩
          | .ok text =>
              if dryRun then
                if limitHitB limit (p + 1) then ⟨p + 1, [idx], []⟩
                else
                  let r := processGo cols force dryRun gen writeOk startRow endRow limit
                    (idx + 1) rest (p + 1)
                  ⟨r.processed, idx :: r.attempts, r.writes⟩
              else if writeOk idx then
                if limitHitB limit (p + 1) then ⟨p + 1, [idx], [(idx, text)]⟩
                else
                  let r := processGo cols force dryRun gen writeOk startRow endRow limit
                    (idx + 1) rest (p + 1)
                  ⟨r.processed, idx :: r.attempts, (idx, text) :: r.writes⟩
              else
                let r := processGo cols force dryRun gen writeOk startRow endRow limit
                  (idx + 1) rest p
                ⟨r.processed, idx :: r.attempts, r.writes⟩

/-- `DescriptionGenerator.process`: `enumerate(rows, start=1)` with
`processed = 0`. -/
def process (cols : SheetColumns) (force dryRun : Bool)
    (gen : String → String → Except GenErr String) (writeOk : Nat → Bool)
    (startRow : Nat) (endRow : Option Nat) (limit : Option Nat)
    (rows : List (List String)) : ProcResult :=
  processGo cols force dryRun gen writeOk startRow endRow limit 1 rows 0

/-- A row the processor attempts: in range, not past the break bound, a
non-empty name, and either no existing description or force mode. -/
def rowEligible (cols : SheetColumns) (force : Bool) (startRow : Nat) (endRow : Option Nat)
    (idx : Nat) (row : List String) : Bool :=
  decide (startRow ≤ idx) && !endCheckB endRow idx
    && decide (readCell row cols.name ≠ "")
    && (decide (readCell row cols.description = "") || force)

/-- The rows of the range that pass the skip rules, in order — independent
of any generation or write outcome. -/
def eligibleRowsSpec (cols : SheetColumns) (force : Bool) (startRow : Nat)
    (endRow : Option Nat) : Nat → List (List String) → List Nat
  | _, [] => []
  | idx, row :: rest =>
      if rowEligible cols force startRow endRow idx row then
        idx :: eligibleRowsSpec cols force startRow endRow (idx + 1) rest
      else eligibleRowsSpec cols force startRow endRow (idx + 1) rest

/-- The successful writes: eligible rows whose generation returns text and
whose write succeeds. -/
def writesSpec (cols : SheetColumns) (force : Bool) (startRow : Nat) (endRow : Option Nat)
    (gen : String → String → Except GenErr String) (writeOk : Nat → Bool) :
    Nat → List (List String) → List (Nat × String)
  | _, [] => []
  | idx, row :: rest =>
      if rowEligible cols force startRow endRow idx row then
        match gen (readArticle cols row) (readCell row cols.name) with
        | .ok text =>
            if writeOk idx then
              (idx, text) :: writesSpec cols force startRow endRow gen writeOk (idx + 1) rest
            else writesSpec cols force startRow endRow gen writeOk (idx + 1) rest
        | .error _ => writesSpec cols force startRow endRow gen writeOk (idx + 1) rest
      else writesSpec cols force startRow endRow gen writeOk (idx + 1) rest

/-- The input validation of `app.py`'s `api_start` (lines 149-165): the
error branches answer HTTP 400 without starting the worker; the `ok` value
carries the range the worker is started with. -/
def api_start (sheet_id sheet_name : String) (start_row end_row : Int) : Except String (Int × Int) :=
  if start_row ≥ end_row then Except.error "Начальная строка должна быть меньше конечной"
  else if sheet_id = "" ∨ sheet_name = "" then
    Except.error "Необходимо указать ID таблицы и название листа"
  else Except.ok (start_row, end_row)

/-- Writing a value into 0-based cell `j` of a row: a short row is padded
with empty cells, as the spreadsheet itself pads when a cell beyond the
current row extent is written. -/
def padSet (row : List String) (j : Nat) (v : String) : List String :=
  if j < row.length then row.set j v
  else row ++ List.replicate (j - row.length) "" ++ [v]

/-- The effect of one `update_cell(r, c, v)` on the sheet (1-based row and
column). -/
def setCell (rows : List (List String)) (r c : Nat) (v : String) : List (List String) :=
  rows.set (r - 1) (padSet (rows.getD (r - 1) []) (c - 1) v)

/-- The sheet state after a run's successful writes, applied in order; the
state the next run's bulk read returns. -/
def applyWrites (rows : List (List String)) (c : Nat) (ws : List (Nat × String)) :
    List (List String) :=
  ws.foldl (fun rs w => setCell rs w.1 c w.2) rows

/-! ## Theorems -/

theorem stripChars_length_le (l : List Char) : (stripChars l).length ≤ l.length := by
  unfold stripChars
  calc ((l.dropWhile isPySpace).reverse.dropWhile isPySpace).reverse.length
      = ((l.dropWhile isPySpace).reverse.dropWhile isPySpace).length := List.length_reverse _
    _ ≤ (l.dropWhile isPySpace).reverse.length :=
        (List.dropWhile_sublist _).length_le
    _ = (l.dropWhile isPySpace).length := List.length_reverse _
    _ ≤ l.length := (List.dropWhile_sublist _).length_le

theorem pyStrip_length_le (s : String) : (pyStrip s).length ≤ s.length :=
  stripChars_length_le s.data

theorem stripChars_eq_nil_of_all_space (l : List Char) (h : ∀ c ∈ l, isPySpace c) :
    stripChars l = [] := by
  unfold stripChars
  have h1 : l.dropWhile isPySpace = [] := List.dropWhile_eq_nil_iff.mpr h
  rw [h1]
  simp

/-- C5, counterexample: the claim asserts that every 20-character string with
no allow-listed character is accepted, but the 20-space string is such a
string and the Validator rejects it (it is whitespace-only). -/
theorem c5_counterexample :
    twentySpaces.length = 20
    ∧ (∀ c ∈ twentySpaces.data, isAllowListedChar c = false)
    ∧ is_valid_text twentySpaces = false := by
  refine ⟨by decide, by decide, by decide⟩

/-- C5 (amended): the Text Validator returns false for the empty string and
for every whitespace-only string; it returns true for every 20-character
string containing no allow-listed character and equal to its
whitespace-trimmed form (no leading or trailing whitespace); and it returns
false for every 5-character string containing no allow-listed character. -/
theorem c5_amended :
    is_valid_text "" = false
    ∧ (∀ s : String, (∀ c ∈ s.data, isPySpace c = true) → is_valid_text s = false)
    ∧ (∀ s : String, s.length = 20 → (∀ c ∈ s.data, isAllowListedChar c = false) →
        pyStrip s = s → is_valid_text s = true)
    ∧ (∀ s : String, s.length = 5 → (∀ c ∈ s.data, isAllowListedChar c = false) →
        is_valid_text s = false) := by
  refine ⟨by decide, ?_, ?_, ?_⟩
  · intro s h
    have hnil : stripChars s.data = [] := stripChars_eq_nil_of_all_space _ (by simpa using h)
    simp [is_valid_text, pyStrip, hnil]
  · intro s h20 _ hid
    have hne : s ≠ "" := by
      intro hs
      rw [hs] at h20
      simp at h20
    have hstrip : pyStrip s ≠ "" := by rw [hid]; exact hne
    have hlen : (pyStrip s).length > 10 := by rw [hid, h20]; omega
    simp [is_valid_text, hne, hstrip, hlen]
  · intro s h5 hall
    by_cases hstrip : pyStrip s = ""
    · simp [is_valid_text, hstrip]
    · have hne : s ≠ "" := by
        intro hs
        rw [hs] at h5
        simp at h5
      have hany : s.data.any isAllowListedChar = false := by
        simp only [List.any_eq_false]
        intro c hc
        simp [hall c hc]
      have hlen : ¬ ((pyStrip s).length > 10) := by
        have := pyStrip_length_le s
        omega
      simp [is_valid_text, hne, hstrip, hany, hlen]

/-- C5 amended, witness: the amended theorem applied at concrete strings. -/
theorem c5_amended_witness :
    is_valid_text "   " = false
    ∧ is_valid_text "abcdefghijklmnopqrst" = true
    ∧ is_valid_text "abcde" = false :=
  ⟨c5_amended.2.1 "   " (by decide),
   c5_amended.2.2.1 "abcdefghijklmnopqrst" (by decide) (by decide) (by decide),
   c5_amended.2.2.2 "abcde" (by decide) (by decide)⟩

theorem withArticle_decomp :
    PROMPT_TEMPLATE_WITH_ARTICLE.data
      = tmplHead.data ++ ('{' :: 'a' :: 'r' :: 't' :: 'i' :: 'c' :: 'l' :: 'e' :: '}' ::
          (tmplMidA.data ++ ('{' :: 'n' :: 'a' :: 'm' :: 'e' :: '}' :: tmplTailA.data))) := by
  decide

theorem withoutArticle_decomp :
    PROMPT_TEMPLATE_WITHOUT_ARTICLE.data
      = tmplHeadNA.data ++ ('{' :: 'n' :: 'a' :: 'm' :: 'e' :: '}' :: tmplTailNA.data) := by
  decide

theorem fmtGo_text_append (fields : List (String × String)) (l rest : List Char)
    (h : ∀ c ∈ l, c ≠ '{' ∧ c ≠ '}') :
    fmtGo fields .text (l ++ rest) = (fmtGo fields .text rest).map (fun t => l ++ t) := by
  induction l with
  | nil =>
      simp only [List.nil_append]
      cases hr : fmtGo fields .text rest <;> simp [Except.map, hr]
  | cons c l ih =>
      have hc := h c (by simp)
      have hl : ∀ x ∈ l, x ≠ '{' ∧ x ≠ '}' := fun x hx => h x (by simp [hx])
      rw [List.cons_append, fmtGo.eq_def]
      simp only [if_neg hc.1, if_neg hc.2]
      rw [ih hl]
      cases hr : fmtGo fields .text rest <;> simp [Except.map, hr]

theorem fmtGo_article_sub (a n : String) (rest : List Char) :
    fmtGo [("article", a), ("name", n)] .text
        ('{' :: 'a' :: 'r' :: 't' :: 'i' :: 'c' :: 'l' :: 'e' :: '}' :: rest)
      = (fmtGo [("article", a), ("name", n)] .text rest).map (fun t => a.data ++ t) := rfl

theorem fmtGo_name_sub (a n : String) (rest : List Char) :
    fmtGo [("article", a), ("name", n)] .text ('{' :: 'n' :: 'a' :: 'm' :: 'e' :: '}' :: rest)
      = (fmtGo [("article", a), ("name", n)] .text rest).map (fun t => n.data ++ t) := rfl

theorem fmtGo_name_sub_na (n : String) (rest : List Char) :
    fmtGo [("name", n)] .text ('{' :: 'n' :: 'a' :: 'm' :: 'e' :: '}' :: rest)
      = (fmtGo [("name", n)] .text rest).map (fun t => n.data ++ t) := rfl

theorem pyFormat_withArticle (a n : String) :
    pyFormat PROMPT_TEMPLATE_WITH_ARTICLE [("article", a), ("name", n)]
      = Except.ok (String.mk
          (tmplHead.data ++ (a.data ++ (tmplMidA.data ++ (n.data ++ tmplTailA.data))))) := by
  unfold pyFormat
  rw [withArticle_decomp,
    fmtGo_text_append _ tmplHead.data _ (by decide), fmtGo_article_sub,
    fmtGo_text_append _ tmplMidA.data _ (by decide), fmtGo_name_sub,
    show tmplTailA.data = tmplTailA.data ++ ([] : List Char) from (List.append_nil _).symm,
    fmtGo_text_append _ tmplTailA.data _ (by decide)]
  have h0 : fmtGo [("article", a), ("name", n)] FmtMode.text [] = Except.ok [] := rfl
  simp [h0, Except.map]

theorem pyFormat_withoutArticle (n : String) :
    pyFormat PROMPT_TEMPLATE_WITHOUT_ARTICLE [("name", n)]
      = Except.ok (String.mk (tmplHeadNA.data ++ (n.data ++ tmplTailNA.data))) := by
  unfold pyFormat
  rw [withoutArticle_decomp,
    fmtGo_text_append _ tmplHeadNA.data _ (by decide), fmtGo_name_sub_na,
    show tmplTailNA.data = tmplTailNA.data ++ ([] : List Char) from (List.append_nil _).symm,
    fmtGo_text_append _ tmplTailNA.data _ (by decide)]
  have h0 : fmtGo [("name", n)] FmtMode.text [] = Except.ok [] := rfl
  simp [h0, Except.map]

/-- C6 (amended): with no caller-supplied template, the Prompt Builder never
raises and its output contains the trimmed name value verbatim.  A
caller-supplied template is not covered: when substitution fails with a
missing placeholder the template comes back unmodified, so the output need
not contain the name. -/
theorem c6_amended (article name : String) :
    ∃ p, build_prompt none article name = Except.ok p
      ∧ ∃ l r : List Char, l ++ ((pyStrip name).data ++ r) = p.data := by
  have hdef : build_prompt none article name
      = if article ≠ "" ∧ pyStrip article ≠ "" then
          pyFormat PROMPT_TEMPLATE_WITH_ARTICLE
            [("article", pyStrip article), ("name", pyStrip name)]
        else
          pyFormat PROMPT_TEMPLATE_WITHOUT_ARTICLE [("name", pyStrip name)] := rfl
  by_cases h : article ≠ "" ∧ pyStrip article ≠ ""
  · refine ⟨String.mk (tmplHead.data ++ ((pyStrip article).data
      ++ (tmplMidA.data ++ ((pyStrip name).data ++ tmplTailA.data)))), ?_, ?_⟩
    · rw [hdef, if_pos h]
      exact pyFormat_withArticle (pyStrip article) (pyStrip name)
    · exact ⟨tmplHead.data ++ ((pyStrip article).data ++ tmplMidA.data), tmplTailA.data,
        by simp [List.append_assoc]⟩
  · refine ⟨String.mk (tmplHeadNA.data ++ ((pyStrip name).data ++ tmplTailNA.data)), ?_, ?_⟩
    · rw [hdef, if_neg h]
      exact pyFormat_withoutArticle (pyStrip name)
    · exact ⟨tmplHeadNA.data, tmplTailNA.data, rfl⟩

/-- C6, counterexample: with the caller-supplied template `"x"` (which lacks
the expected placeholders), substitution succeeds vacuously and the output
is `"x"`, which does not contain the name value `"Bolt"`; so the claim fails
for caller-supplied templates. -/
theorem c6_counterexample :
    build_prompt (some "x") "" "Bolt" = Except.ok "x"
    ∧ ¬ ∃ l r : List Char, l ++ ("Bolt".data ++ r) = "x".data := by
  constructor
  · decide
  · rintro ⟨l, r, h⟩
    have hlen := congrArg List.length h
    have hB : ("Bolt".data).length = 4 := rfl
    have hx : ("x".data).length = 1 := rfl
    simp only [List.length_append, hB, hx] at hlen
    omega

theorem dictGet_insertOverwrite (m : List (String × Nat)) (k : String) (v : Nat) (key : String) :
    dictGet (insertOverwrite m k v) key
      = if k = key then some v else dictGet m key := by
  induction m with
  | nil =>
      by_cases h : k = key <;> simp [insertOverwrite, dictGet, h]
  | cons kv rest ih =>
      obtain ⟨k0, v0⟩ := kv
      by_cases h0 : k0 = k
      · subst h0
        by_cases h2 : k0 = key <;> simp [insertOverwrite, dictGet, h2]
      · by_cases h1 : k0 = key
        · have h2 : k ≠ key := fun hk => h0 (h1.trans hk.symm)
          have h0k : ¬ key = k := fun e => h0 (h1.trans e)
          simp [insertOverwrite, dictGet, h0, h1, h2, h0k]
        · by_cases h2 : k = key
          · subst h2
            simp [insertOverwrite, dictGet, h0, h1, ih]
          · simp [insertOverwrite, dictGet, h0, h1, h2, ih]

theorem dictGet_headerDictAux (key : String) :
    ∀ (l : List String) (i : Nat) (m : List (String × Nat)),
    dictGet (headerDictAux l i m) key
      = match lastMatchFrom l key (i + 1) with
        | some j => some j
        | none => dictGet m key := by
  intro l
  induction l with
  | nil => intro i m; rfl
  | cons s rest ih =>
      intro i m
      show dictGet (headerDictAux rest (i + 1) (insertOverwrite m (pyStrip s) (i + 1))) key = _
      rw [ih (i + 1)]
      conv_rhs => rw [lastMatchFrom]
      cases h : lastMatchFrom rest key (i + 1 + 1) with
      | some j => simp
      | none =>
          rw [dictGet_insertOverwrite]
          by_cases hk : pyStrip s = key <;> simp [hk]

/-- C7 (amended): Column Resolver lookup is by exact trimmed match of the
configured header name against the header-row cells, and when a header name
occurs in more than one cell the LAST occurrence wins (the resolved column
index is the rightmost matching cell). -/
theorem c7_amended (header : List String) (key : String) :
    headerLookup header key = lastMatchIdx header key := by
  unfold headerLookup header_map lastMatchIdx
  rw [dictGet_headerDictAux]
  show (match lastMatchFrom header key 1 with
        | some j => some j
        | none => dictGet [] key) = lastMatchFrom header key 1
  cases h : lastMatchFrom header key 1 <;> simp [h, dictGet]

/-- C7, counterexample: with the duplicated header `["A", "A"]` the resolver
returns column 2, not the first occurrence (column 1) that the claim
asserts. -/
theorem c7_counterexample :
    headerLookup ["A", "A"] "A" = some 2
    ∧ firstMatchIdx ["A", "A"] "A" = some 1
    ∧ headerLookup ["A", "A"] "A" ≠ firstMatchIdx ["A", "A"] "A" :=
  ⟨by decide, by decide, by decide⟩

/-- C7 amended, witness: the amended theorem applied at a concrete header. -/
theorem c7_amended_witness :
    headerLookup ["A", "B", "A"] "A" = lastMatchIdx ["A", "B", "A"] "A"
    ∧ lastMatchIdx ["A", "B", "A"] "A" = some 3 :=
  ⟨c7_amended ["A", "B", "A"] "A", by decide⟩

theorem tryAttempts_mem (primary : Nat → Nat → PrimaryOutcome) (m : Nat) :
    ∀ (remaining a m' a' : Nat), (m', a') ∈ (tryAttempts primary m remaining a).2 →
      m' = m ∧ a ≤ a'
        ∧ (∀ j, a ≤ j → j < a' → primary m j = PrimaryOutcome.transientError) := by
  intro remaining
  induction remaining with
  | zero =>
      intro a m' a' h
      simp [tryAttempts] at h
  | succ k ih =>
      intro a m' a' h
      cases hp : primary m a with
      | text s =>
          simp [tryAttempts, hp] at h
          exact ⟨h.1, h.2 ▸ le_refl a, fun j hj1 hj2 => absurd (h.2 ▸ hj2) (by omega)⟩
      | transientError =>
          simp [tryAttempts, hp] at h
          rcases h with ⟨h1, h2⟩ | h
          · exact ⟨h1, h2 ▸ le_refl a, fun j hj1 hj2 => absurd (h2 ▸ hj2) (by omega)⟩
          · obtain ⟨hm, ha, hj⟩ := ih (a + 1) m' a' h
            refine ⟨hm, by omega, fun j hj1 hj2 => ?_⟩
            by_cases hje : j = a
            · exact hje ▸ hp
            · exact hj j (by omega) hj2
      | otherError =>
          simp [tryAttempts, hp] at h
          exact ⟨h.1, h.2 ▸ le_refl a, fun j hj1 hj2 => absurd (h.2 ▸ hj2) (by omega)⟩

theorem tryAttempts_result_none (primary : Nat → Nat → PrimaryOutcome) (m : Nat) :
    ∀ (remaining a a₀ : Nat), (m, a₀) ∈ (tryAttempts primary m remaining a).2 →
      primary m a₀ = PrimaryOutcome.otherError →
      (tryAttempts primary m remaining a).1 = none := by
  intro remaining
  induction remaining with
  | zero =>
      intro a a₀ h _
      simp [tryAttempts] at h
  | succ k ih =>
      intro a a₀ h hp0
      cases hp : primary m a with
      | text s =>
          simp [tryAttempts, hp] at h
          rw [h] at hp0
          simp [hp] at hp0
      | transientError =>
          simp [tryAttempts, hp] at h ⊢
          rcases h with h | h
          · rw [h] at hp0
            simp [hp] at hp0
          · exact ih (a + 1) a₀ h hp0
      | otherError =>
          simp [tryAttempts, hp]

theorem tryAttempts_first (primary : Nat → Nat → PrimaryOutcome) (m k : Nat) :
    (m, 1) ∈ (tryAttempts primary m (k + 1) 1).2 := by
  cases hp : primary m 1 <;> simp [tryAttempts, hp]

theorem runModels_mem_structure (primary : Nat → Nat → PrimaryOutcome)
    (secondary : SecondaryOutcome) (maxR : Nat) :
    ∀ (rest : List String) (m : Nat) (x : Nat × Nat),
      x ∈ (runModels primary secondary maxR rest m).2 →
      ∃ k, m ≤ k ∧ k < m + rest.length ∧ x ∈ (tryAttempts primary k maxR 1).2
        ∧ ∀ j, m ≤ j → j < k → (tryAttempts primary j maxR 1).1 = none := by
  intro rest
  induction rest with
  | nil =>
      intro m x h
      simp [runModels] at h
  | cons s rest ih =>
      intro m x h
      rcases hta : tryAttempts primary m maxR 1 with ⟨o, log⟩
      have hmem_m : x ∈ log →
          ∃ k, m ≤ k ∧ k < m + (s :: rest).length ∧ x ∈ (tryAttempts primary k maxR 1).2
            ∧ ∀ j, m ≤ j → j < k → (tryAttempts primary j maxR 1).1 = none := by
        intro hx
        exact ⟨m, le_refl m, by simp, by rw [hta]; exact hx,
          fun j hj1 hj2 => absurd hj2 (by omega)⟩
      cases o with
      | some t =>
          rw [runModels, hta] at h
          exact hmem_m h
      | none =>
          cases rest with
          | nil =>
              rw [runModels, hta] at h
              exact hmem_m h
          | cons s2 rest2 =>
              rw [runModels, hta] at h
              rcases List.mem_append.mp h with hx | hx
              · exact hmem_m hx
              · obtain ⟨k, hk1, hk2, hk3, hk4⟩ := ih (m + 1) x hx
                refine ⟨k, by omega, by simp at hk2 ⊢; omega, hk3, fun j hj1 hj2 => ?_⟩
                by_cases hje : j = m
                · subst hje
                  rw [hta]
                · exact hk4 j (by omega) hj2

theorem runModels_mem_of_failed (primary : Nat → Nat → PrimaryOutcome)
    (secondary : SecondaryOutcome) (maxR : Nat) :
    ∀ (rest : List String) (m k : Nat) (x : Nat × Nat), m ≤ k → k < m + rest.length →
      (∀ j, m ≤ j → j < k → (tryAttempts primary j maxR 1).1 = none) →
      x ∈ (tryAttempts primary k maxR 1).2 →
      x ∈ (runModels primary secondary maxR rest m).2 := by
  intro rest
  induction rest with
  | nil =>
      intro m k x h1 h2 _ _
      simp at h2
      omega
  | cons s rest ih =>
      intro m k x hmk hk hfail hx
      rcases hta : tryAttempts primary m maxR 1 with ⟨o, log⟩
      by_cases hkm : k = m
      · subst hkm
        have hxlog : x ∈ log := by rw [hta] at hx; exact hx
        cases o with
        | some t => rw [runModels, hta]; exact hxlog
        | none =>
            cases rest with
            | nil => rw [runModels, hta]; exact hxlog
            | cons s2 rest2 =>
                rw [runModels, hta]
                exact List.mem_append.mpr (Or.inl hxlog)
      · have hm_fail : (tryAttempts primary m maxR 1).1 = none :=
          hfail m (le_refl m) (by omega)
        have ho : o = none := by rw [hta] at hm_fail; exact hm_fail
        subst ho
        cases rest with
        | nil =>
            simp at hk
            omega
        | cons s2 rest2 =>
            have hrec := ih (m + 1) k x (by omega) (by simp at hk ⊢; omega)
              (fun j hj1 hj2 => hfail j (by omega) hj2) hx
            rw [runModels, hta]
            exact List.mem_append.mpr (Or.inr hrec)

/-- C8: a non-transient error on a primary call at attempt `a₀` of model `m`
abandons the remaining attempts for that model — no later attempt on `m`
ever appears in the call log — and, if the call happened and a next model
exists, that next model is tried (its first attempt is called). -/
theorem c8_hard_error_escalates (primary : Nat → Nat → PrimaryOutcome)
    (secondary : SecondaryOutcome) (maxRetries m a₀ : Nat)
    (ha : 1 ≤ a₀) (hp : primary m a₀ = PrimaryOutcome.otherError) :
    (∀ a, a₀ < a → (m, a) ∉ (generate_description primary secondary maxRetries).2)
    ∧ ((m, a₀) ∈ (generate_description primary secondary maxRetries).2 →
        m + 1 < models.length →
        (m + 1, 1) ∈ (generate_description primary secondary maxRetries).2) := by
  constructor
  · intro a haa hmem
    obtain ⟨k, _, _, hk3, _⟩ :=
      runModels_mem_structure primary secondary maxRetries models 0 (m, a) hmem
    obtain ⟨hm, _, hj⟩ := tryAttempts_mem primary k maxRetries 1 m a hk3
    subst hm
    have := hj a₀ ha haa
    rw [hp] at this
    cases this
  · intro hmem hlen
    obtain ⟨k, _, hk2, hk3, hk4⟩ :=
      runModels_mem_structure primary secondary maxRetries models 0 (m, a₀) hmem
    obtain ⟨hm, _, _⟩ := tryAttempts_mem primary k maxRetries 1 m a₀ hk3
    subst hm
    have hfail_m : (tryAttempts primary m maxRetries 1).1 = none :=
      tryAttempts_result_none primary m maxRetries 1 a₀ hk3 hp
    obtain ⟨r, hr⟩ : ∃ r, maxRetries = r + 1 := by
      cases maxRetries with
      | zero => simp [tryAttempts] at hk3
      | succ r => exact ⟨r, rfl⟩
    apply runModels_mem_of_failed primary secondary maxRetries models 0 (m + 1) (m + 1, 1)
      (by omega) (by simpa using hlen) ?_ ?_
    · intro j hj1 hj2
      by_cases hje : j = m
      · subst hje
        exact hfail_m
      · exact hk4 j hj1 (by omega)
    · rw [hr]
      exact tryAttempts_first primary (m + 1) r

/-- C8, witness: a primary provider whose every call raises a hard error;
with 2 retries allowed, model 0 is never given a second attempt and model 1
is tried. -/
theorem c8_witness :
    (0, 2) ∉ (generate_description (fun _ _ => PrimaryOutcome.otherError)
      (SecondaryOutcome.response 200 []) 2).2
    ∧ (1, 1) ∈ (generate_description (fun _ _ => PrimaryOutcome.otherError)
      (SecondaryOutcome.response 200 []) 2).2 :=
  ⟨(c8_hard_error_escalates (fun _ _ => PrimaryOutcome.otherError)
      (SecondaryOutcome.response 200 []) 2 0 1 (by decide) rfl).1 2 (by decide),
   (c8_hard_error_escalates (fun _ _ => PrimaryOutcome.otherError)
      (SecondaryOutcome.response 200 []) 2 0 1 (by decide) rfl).2 (by decide) (by decide)⟩

/-- C1, behaviour of the code at the claim's input: with a primary provider
that always streams invalid text and a secondary provider that answers with
valid text, the engine returns the secondary text, but the primary is
invoked exactly once per model — `models.length` calls in total, attempt 1
of each model — not `models × max_retries` times: the invalid text raises
`RuntimeError`, which the generic handler catches and then breaks out of the
attempt loop. -/
theorem c1_code_behavior (maxRetries : Nat) (h : 1 ≤ maxRetries) :
    generate_description (fun _ _ => PrimaryOutcome.text "")
        (SecondaryOutcome.response 200 [okSecondaryText]) maxRetries
      = (Except.ok okSecondaryText, [(0, 1), (1, 1), (2, 1)])
    ∧ ([(0, 1), (1, 1), (2, 1)] : List (Nat × Nat)).length = models.length := by
  obtain ⟨k, rfl⟩ : ∃ k, maxRetries = k + 1 := ⟨maxRetries - 1, by omega⟩
  exact ⟨rfl, rfl⟩

/-- C1, witness: the behaviour theorem at `max_retries = 3` (the default):
3 primary calls are made, not 9. -/
theorem c1_code_behavior_witness :
    generate_description (fun _ _ => PrimaryOutcome.text "")
        (SecondaryOutcome.response 200 [okSecondaryText]) 3
      = (Except.ok okSecondaryText, [(0, 1), (1, 1), (2, 1)])
    ∧ ([(0, 1), (1, 1), (2, 1)] : List (Nat × Nat)).length = models.length :=
  c1_code_behavior 3 (by decide)

/-- C2, behaviour of the code at the claim's input: model 0's first answer
fails the Validator while `max_retries = 3` leaves two attempts; the claim
says model 0 is then retried, but the code abandons model 0 after that
single call (the validation `RuntimeError` hits the generic `break`
handler) and returns model 1's text after 2 primary calls in total. -/
theorem c2_code_behavior :
    generate_description
        (fun m _ => if m = 0 then PrimaryOutcome.text "" else PrimaryOutcome.text modelTwoText)
        (SecondaryOutcome.response 200 []) 3
      = (Except.ok modelTwoText, [(0, 1), (1, 1)])
    ∧ (0, 2) ∉ (generate_description
        (fun m _ => if m = 0 then PrimaryOutcome.text "" else PrimaryOutcome.text modelTwoText)
        (SecondaryOutcome.response 200 []) 3).2 := by
  exact ⟨by decide, by decide⟩

theorem endCheckB_true_mono (endRow : Option Nat) (idx j : Nat) (hij : idx ≤ j)
    (h : endCheckB endRow idx = true) : endCheckB endRow j = true := by
  cases endRow with
  | none => simp [endCheckB] at h
  | some e =>
      simp [endCheckB] at h ⊢
      omega

theorem eligibleRowsSpec_nil_of (cols : SheetColumns) (force : Bool) (startRow : Nat)
    (endRow : Option Nat) :
    ∀ (rows : List (List String)) (idx : Nat),
      (∀ j, idx ≤ j → endCheckB endRow j = true) →
      eligibleRowsSpec cols force startRow endRow idx rows = [] := by
  intro rows
  induction rows with
  | nil => intro idx _; rfl
  | cons row rest ih =>
      intro idx h
      have he : rowEligible cols force startRow endRow idx row = false := by
        simp [rowEligible, h idx (le_refl idx)]
      simp [eligibleRowsSpec, he, ih (idx + 1) (fun j hj => h j (by omega))]

theorem writesSpec_nil_of (cols : SheetColumns) (force : Bool) (startRow : Nat)
    (endRow : Option Nat) (gen : String → String → Except GenErr String)
    (writeOk : Nat → Bool) :
    ∀ (rows : List (List String)) (idx : Nat),
      (∀ j, idx ≤ j → endCheckB endRow j = true) →
      writesSpec cols force startRow endRow gen writeOk idx rows = [] := by
  intro rows
  induction rows with
  | nil => intro idx _; rfl
  | cons row rest ih =>
      intro idx h
      have he : rowEligible cols force startRow endRow idx row = false := by
        simp [rowEligible, h idx (le_refl idx)]
      simp [writesSpec, he, ih (idx + 1) (fun j hj => h j (by omega))]

theorem processGo_spec (cols : SheetColumns) (force : Bool)
    (gen : String → String → Except GenErr String) (writeOk : Nat → Bool)
    (startRow : Nat) (endRow : Option Nat) :
    ∀ (rows : List (List String)) (idx p : Nat),
    processGo cols force false gen writeOk startRow endRow none idx rows p
      = ⟨p + (writesSpec cols force startRow endRow gen writeOk idx rows).length,
         eligibleRowsSpec cols force startRow endRow idx rows,
         writesSpec cols force startRow endRow gen writeOk idx rows⟩ := by
  intro rows
  induction rows with
  | nil =>
      intro idx p
      simp [processGo, eligibleRowsSpec, writesSpec]
  | cons row rest ih =>
      intro idx p
      by_cases h1 : idx < startRow
      · have hne : ¬ startRow ≤ idx := by omega
        have he : rowEligible cols force startRow endRow idx row = false := by
          simp [rowEligible, hne]
        rw [processGo]
        simp only [if_pos h1, ih, eligibleRowsSpec, writesSpec, he]
        simp
      · by_cases h2 : endCheckB endRow idx = true
        · have hmono : ∀ j, idx ≤ j → endCheckB endRow j = true :=
            fun j hj => endCheckB_true_mono endRow idx j hj h2
          rw [processGo]
          rw [eligibleRowsSpec_nil_of cols force startRow endRow (row :: rest) idx hmono,
            writesSpec_nil_of cols force startRow endRow gen writeOk (row :: rest) idx hmono]
          simp [if_neg h1, h2]
        · have h2f : endCheckB endRow idx = false := by
            revert h2
            cases endCheckB endRow idx <;> simp
          by_cases h3 : readCell row cols.name = ""
          · have he : rowEligible cols force startRow endRow idx row = false := by
              simp [rowEligible, h3]
            rw [processGo]
            simp only [if_neg h1, h2f, Bool.false_eq_true, if_false, if_pos h3, ih,
              eligibleRowsSpec, writesSpec, he]
          · by_cases h4 : readCell row cols.description ≠ "" ∧ force = false
            · have he : rowEligible cols force startRow endRow idx row = false := by
                simp [rowEligible, h4.1, h4.2]
              rw [processGo]
              simp only [if_neg h1, h2f, Bool.false_eq_true, if_false, if_neg h3,
                if_pos h4, ih, eligibleRowsSpec, writesSpec, he]
            · have he : rowEligible cols force startRow endRow idx row = true := by
                have hd : readCell row cols.description = "" ∨ force = true := by
                  by_cases hdesc : readCell row cols.description = ""
                  · exact Or.inl hdesc
                  · by_cases hf : force = true
                    · exact Or.inr hf
                    · exact absurd ⟨hdesc, by revert hf; cases force <;> simp⟩ h4
                simp [rowEligible, h3, h2f]
                constructor
                · omega
                · rcases hd with hd | hd <;> simp [hd]
              rw [processGo]
              simp only [if_neg h1, h2f, Bool.false_eq_true, if_false, if_neg h3, if_neg h4]
              cases hgen : gen (readArticle cols row) (readCell row cols.name) with
              | error e =>
                  simp only [ih, eligibleRowsSpec, writesSpec, he, if_true, hgen]
              | ok text =>
                  cases hw : writeOk idx with
                  | true =>
                      simp only [Bool.false_eq_true, if_false, hw, if_true, limitHitB, ih,
                        eligibleRowsSpec, writesSpec, he, hgen]
                      simp
                      omega
                  | false =>
                      simp only [Bool.false_eq_true, if_false, hw, ih,
                        eligibleRowsSpec, writesSpec, he, if_true, hgen]

/-- C3: over any row range (no limit, not a dry run) the attempted rows are
exactly the rows passing the skip rules — a filter independent of every
generation or write outcome, so one row's terminal generation failure or
write failure never prevents another row from being attempted — and the
returned count equals the number of successfully written rows, so a failed
row is not counted. -/
theorem c3_row_failures_isolated (cols : SheetColumns) (force : Bool)
    (gen : String → String → Except GenErr String) (writeOk : Nat → Bool)
    (startRow : Nat) (endRow : Option Nat) (rows : List (List String)) :
    (process cols force false gen writeOk startRow endRow none rows).attempts
        = eligibleRowsSpec cols force startRow endRow 1 rows
    ∧ (process cols force false gen writeOk startRow endRow none rows).processed
        = (process cols force false gen writeOk startRow endRow none rows).writes.length := by
  unfold process
  rw [processGo_spec cols force gen writeOk startRow endRow rows 1 0]
  exact ⟨rfl, by simp⟩

theorem eligibleRowsSpec_mem (cols : SheetColumns) (force : Bool) (startRow : Nat)
    (endRow : Option Nat) :
    ∀ (rows : List (List String)) (idx0 j : Nat),
      j ∈ eligibleRowsSpec cols force startRow endRow idx0 rows ↔
        (idx0 ≤ j ∧ j < idx0 + rows.length
          ∧ rowEligible cols force startRow endRow j (rows.getD (j - idx0) []) = true) := by
  intro rows
  induction rows with
  | nil =>
      intro idx0 j
      simp [eligibleRowsSpec]
      omega
  | cons row rest ih =>
      intro idx0 j
      by_cases hc : rowEligible cols force startRow endRow idx0 row = true
      · simp only [eligibleRowsSpec, if_pos hc, List.mem_cons, ih (idx0 + 1) j]
        constructor
        · rintro (rfl | ⟨h1, h2, h3⟩)
          · refine ⟨le_refl j, by simp, ?_⟩
            simpa [Nat.sub_self] using hc
          · refine ⟨by omega, by simp only [List.length_cons]; omega, ?_⟩
            have hsub : j - idx0 = (j - (idx0 + 1)) + 1 := by omega
            rw [hsub, List.getD_cons_succ]
            exact h3
        · rintro ⟨h1, h2, h3⟩
          by_cases hj : j = idx0
          · exact Or.inl hj
          · right
            refine ⟨by omega, by simp only [List.length_cons] at h2; omega, ?_⟩
            have hsub : j - idx0 = (j - (idx0 + 1)) + 1 := by omega
            rw [hsub, List.getD_cons_succ] at h3
            exact h3
      · simp only [eligibleRowsSpec, if_neg hc, ih (idx0 + 1) j]
        constructor
        · rintro ⟨h1, h2, h3⟩
          refine ⟨by omega, by simp only [List.length_cons]; omega, ?_⟩
          have hsub : j - idx0 = (j - (idx0 + 1)) + 1 := by omega
          rw [hsub, List.getD_cons_succ]
          exact h3
        · rintro ⟨h1, h2, h3⟩
          by_cases hj : j = idx0
          · subst hj
            rw [Nat.sub_self, List.getD_cons_zero] at h3
            exact absurd h3 hc
          · refine ⟨by omega, by simp only [List.length_cons] at h2 ⊢; omega, ?_⟩
            have hsub : j - idx0 = (j - (idx0 + 1)) + 1 := by omega
            rw [hsub, List.getD_cons_succ] at h3
            exact h3

theorem writesSpec_mem (cols : SheetColumns) (force : Bool) (startRow : Nat)
    (endRow : Option Nat) (gen : String → String → Except GenErr String)
    (writeOk : Nat → Bool) :
    ∀ (rows : List (List String)) (idx0 j : Nat) (t : String),
      (j, t) ∈ writesSpec cols force startRow endRow gen writeOk idx0 rows →
        idx0 ≤ j ∧ j < idx0 + rows.length
          ∧ rowEligible cols force startRow endRow j (rows.getD (j - idx0) []) = true
          ∧ ∃ a n, gen a n = Except.ok t := by
  intro rows
  induction rows with
  | nil =>
      intro idx0 j t h
      simp [writesSpec] at h
  | cons row rest ih =>
      intro idx0 j t h
      have step : (j, t) ∈ writesSpec cols force startRow endRow gen writeOk (idx0 + 1) rest →
          idx0 ≤ j ∧ j < idx0 + (row :: rest).length
            ∧ rowEligible cols force startRow endRow j ((row :: rest).getD (j - idx0) []) = true
            ∧ ∃ a n, gen a n = Except.ok t := by
        intro hmem
        obtain ⟨h1, h2, h3, h4⟩ := ih (idx0 + 1) j t hmem
        refine ⟨by omega, by simp only [List.length_cons]; omega, ?_, h4⟩
        have hsub : j - idx0 = (j - (idx0 + 1)) + 1 := by omega
        rw [hsub, List.getD_cons_succ]
        exact h3
      by_cases hc : rowEligible cols force startRow endRow idx0 row = true
      · rw [writesSpec, if_pos hc] at h
        cases hgen : gen (readArticle cols row) (readCell row cols.name) with
        | error e =>
            rw [hgen] at h
            exact step h
        | ok text =>
            rw [hgen] at h
            cases hw : writeOk idx0 with
            | false =>
                rw [hw] at h
                simp only [Bool.false_eq_true, if_false] at h
                exact step h
            | true =>
                rw [hw] at h
                simp only [if_true] at h
                rcases List.mem_cons.mp h with heq | hmem
                · obtain ⟨rfl, rfl⟩ : j = idx0 ∧ t = text := by
                    exact ⟨congrArg Prod.fst heq, congrArg Prod.snd heq⟩
                  refine ⟨le_refl j, by simp, ?_, ?_⟩
                  · simpa [Nat.sub_self] using hc
                  · exact ⟨readArticle cols row, readCell row cols.name, hgen⟩
                · exact step hmem
      · rw [writesSpec, if_neg hc] at h
        exact step h

/-- C9, counterexample: the core Row Processor performs no range check of
its own — called directly with `start_row = end_row = 3` it processes row 3
and returns 1, with no error surfaced. -/
theorem c9_counterexample :
    process ⟨none, 1, 2⟩ false false (fun _ _ => Except.ok "Описание детали") (fun _ => true)
        3 (some 3) none [["x", "y"], ["a", ""], ["Болт", ""]]
      = ⟨1, [3], [(3, "Описание детали")]⟩ := by decide

/-- C9 (amended): the start ≥ end check lives in the web layer, not the Row
Processor: `api_start` rejects `start_row ≥ end_row` with an immediate
configuration error before the worker is started, so no row is processed on
that path; the core `process` loop itself does not validate the range — with
`start_row > end_row` it silently processes no rows (and, as the
counterexample shows, with `start_row = end_row` it processes that single
row). -/
theorem c9_amended :
    (∀ (sheet_id sheet_name : String) (s e : Int), s ≥ e →
      api_start sheet_id sheet_name s e
        = Except.error "Начальная строка должна быть меньше конечной")
    ∧ (∀ (cols : SheetColumns) (force : Bool)
        (gen : String → String → Except GenErr String) (writeOk : Nat → Bool)
        (s e : Nat) (rows : List (List String)), e ≠ 0 → e < s →
        process cols force false gen writeOk s (some e) none rows = ⟨0, [], []⟩) := by
  constructor
  · intro _ _ s e h
    unfold api_start
    rw [if_pos h]
  · intro cols force gen writeOk s e rows he hes
    have hfalse : ∀ (j : Nat) (row : List String),
        rowEligible cols force s (some e) j row = false := by
      intro j row
      by_cases hsj : s ≤ j
      · have hend : endCheckB (some e) j = true := by
          simp [endCheckB]
          omega
        simp [rowEligible, hend]
      · simp [rowEligible, hsj]
    have hel : eligibleRowsSpec cols force s (some e) 1 rows = [] := by
      rw [List.eq_nil_iff_forall_not_mem]
      intro j hj
      rw [eligibleRowsSpec_mem] at hj
      rw [hfalse j _] at hj
      simp at hj
    have hw : writesSpec cols force s (some e) gen writeOk 1 rows = [] := by
      rw [List.eq_nil_iff_forall_not_mem]
      rintro ⟨j, t⟩ hw0
      obtain ⟨_, _, h3, _⟩ :=
        writesSpec_mem cols force s (some e) gen writeOk rows 1 j t hw0
      rw [hfalse j _] at h3
      cases h3
    unfold process
    rw [processGo_spec, hel, hw]
    rfl

/-- C10: a row shorter than a resolved column index never faults: the
missing cell reads as the empty string, a row too short to reach the name
column is skipped (never attempted), and a row too short to reach the
description column is treated as having no existing description, so it is
attempted whenever the other conditions hold. -/
theorem c10_short_rows_safe (cols : SheetColumns) (force : Bool)
    (gen : String → String → Except GenErr String) (writeOk : Nat → Bool)
    (startRow : Nat) (endRow : Option Nat) (rows : List (List String)) (idx : Nat) :
    (∀ (row : List String) (col : Nat), row.length < col → readCell row col = "")
    ∧ ((rows.getD (idx - 1) []).length < cols.name →
        idx ∉ (process cols force false gen writeOk startRow endRow none rows).attempts)
    ∧ ((rows.getD (idx - 1) []).length < cols.description →
        1 ≤ idx → idx ≤ rows.length → startRow ≤ idx → endCheckB endRow idx = false →
        readCell (rows.getD (idx - 1) []) cols.name ≠ "" →
        idx ∈ (process cols force false gen writeOk startRow endRow none rows).attempts) := by
  have hatt : (process cols force false gen writeOk startRow endRow none rows).attempts
      = eligibleRowsSpec cols force startRow endRow 1 rows := by
    unfold process
    rw [processGo_spec]
  refine ⟨?_, ?_, ?_⟩
  · intro row col h
    unfold readCell
    rw [if_neg (by omega)]
  · intro hshort hmem
    rw [hatt, eligibleRowsSpec_mem] at hmem
    obtain ⟨h1, h2, h3⟩ := hmem
    have hval : readCell (rows.getD (idx - 1) []) cols.name = "" := by
      unfold readCell
      rw [if_neg (by omega)]
    simp only [rowEligible, Bool.and_eq_true, Bool.or_eq_true, decide_eq_true_eq,
      Bool.not_eq_true'] at h3
    exact h3.1.2 hval
  · intro hshort h1 h2 h3 h4 h5
    rw [hatt, eligibleRowsSpec_mem]
    have hval : readCell (rows.getD (idx - 1) []) cols.description = "" := by
      unfold readCell
      rw [if_neg (by omega)]
    refine ⟨h1, by omega, ?_⟩
    simp only [rowEligible, Bool.and_eq_true, Bool.or_eq_true, decide_eq_true_eq,
      Bool.not_eq_true']
    exact ⟨⟨⟨h3, h4⟩, h5⟩, Or.inl hval⟩

/-- C10, witness: a 1-cell row with the name column at 5 is skipped; a
1-cell row whose description column is 2 is attempted. -/
theorem c10_witness :
    1 ∉ (process ⟨none, 5, 6⟩ false false (fun _ _ => Except.ok "Описание") (fun _ => true)
        1 none none [["x"]]).attempts
    ∧ 1 ∈ (process ⟨none, 1, 2⟩ false false (fun _ _ => Except.ok "Описание") (fun _ => true)
        1 none none [["Болт"]]).attempts :=
  ⟨(c10_short_rows_safe ⟨none, 5, 6⟩ false (fun _ _ => Except.ok "Описание") (fun _ => true)
      1 none [["x"]] 1).2.1 (by decide),
   (c10_short_rows_safe ⟨none, 1, 2⟩ false (fun _ _ => Except.ok "Описание") (fun _ => true)
      1 none [["Болт"]] 1).2.2 (by decide) (by decide) (by decide) (by decide) (by decide)
      (by decide)⟩

/-- C9 amended, witness: the amended theorem at concrete inputs. -/
theorem c9_amended_witness :
    api_start "sheet" "КомТехАвто" 5 3
        = Except.error "Начальная строка должна быть меньше конечной"
    ∧ process ⟨none, 1, 2⟩ false false (fun _ _ => Except.ok "Описание") (fun _ => true)
        5 (some 3) none [["Болт", ""]] = ⟨0, [], []⟩ :=
  ⟨c9_amended.1 "sheet" "КомТехАвто" 5 3 (by decide),
   c9_amended.2 ⟨none, 1, 2⟩ false (fun _ _ => Except.ok "Описание") (fun _ => true)
     5 3 [["Болт", ""]] (by decide) (by decide)⟩

theorem setCell_length (rows : List (List String)) (r c : Nat) (v : String) :
    (setCell rows r c v).length = rows.length :=
  List.length_set rows _ _

theorem applyWrites_length (c : Nat) :
    ∀ (ws : List (Nat × String)) (rows : List (List String)),
      (applyWrites rows c ws).length = rows.length := by
  intro ws
  induction ws with
  | nil => intro rows; rfl
  | cons w ws ih =>
      intro rows
      show (applyWrites (setCell rows w.1 c w.2) c ws).length = rows.length
      rw [ih, setCell_length]

theorem padSet_length_ge (row : List String) (c : Nat) (hc : 1 ≤ c) (v : String) :
    c ≤ (padSet row (c - 1) v).length := by
  unfold padSet
  by_cases h : c - 1 < row.length
  · rw [if_pos h, List.length_set]
    omega
  · rw [if_neg h]
    simp only [List.length_append, List.length_replicate, List.length_cons,
      List.length_nil]
    omega

theorem padSet_getD (row : List String) (j : Nat) (v : String) :
    (padSet row j v).getD j "" = v := by
  unfold padSet
  by_cases h : j < row.length
  · rw [if_pos h]
    simp [List.getD_eq_getElem?_getD, List.getElem?_set_self, h]
  · rw [if_neg h]
    rw [List.getD_eq_getElem?_getD]
    rw [List.getElem?_append_right
      (by simp only [List.length_append, List.length_replicate]; omega :
        (row ++ List.replicate (j - row.length) "").length ≤ j)]
    simp only [List.length_append, List.length_replicate]
    have h0 : j - (row.length + (j - row.length)) = 0 := by omega
    rw [h0]
    simp

theorem readCell_padSet (row : List String) (c : Nat) (hc : 1 ≤ c) (v : String) :
    readCell (padSet row (c - 1) v) c = pyStrip v := by
  unfold readCell
  rw [if_pos (padSet_length_ge row c hc v), padSet_getD]

theorem getD_setCell_self (rows : List (List String)) (r c : Nat) (v : String)
    (h1 : 1 ≤ r) (h2 : r ≤ rows.length) :
    (setCell rows r c v).getD (r - 1) [] = padSet (rows.getD (r - 1) []) (c - 1) v := by
  unfold setCell
  have hlt : r - 1 < rows.length := by omega
  simp [List.getD_eq_getElem?_getD, List.getElem?_set_self, hlt]

theorem getD_setCell_ne (rows : List (List String)) (r r2 c : Nat) (v : String)
    (h1 : 1 ≤ r) (h2 : 1 ≤ r2) (hne : r2 ≠ r) :
    (setCell rows r c v).getD (r2 - 1) [] = rows.getD (r2 - 1) [] := by
  unfold setCell
  have hne2 : r - 1 ≠ r2 - 1 := by omega
  simp [List.getD_eq_getElem?_getD, List.getElem?_set_ne hne2]

theorem applyWrites_untouched (c : Nat) :
    ∀ (ws : List (Nat × String)) (rows : List (List String)) (idx : Nat), 1 ≤ idx →
      (∀ w ∈ ws, 1 ≤ w.1 ∧ w.1 ≠ idx) →
      (applyWrites rows c ws).getD (idx - 1) [] = rows.getD (idx - 1) [] := by
  intro ws
  induction ws with
  | nil => intro rows idx _ _; rfl
  | cons w ws ih =>
      intro rows idx hidx h
      show (applyWrites (setCell rows w.1 c w.2) c ws).getD (idx - 1) []
        = rows.getD (idx - 1) []
      rw [ih (setCell rows w.1 c w.2) idx hidx (fun w2 hw2 => h w2 (List.mem_cons_of_mem _ hw2))]
      exact getD_setCell_ne rows w.1 idx c w.2 (h w (List.mem_cons_self _ _)).1 hidx
        ((h w (List.mem_cons_self _ _)).2).symm

theorem applyWrites_written (c : Nat) (hc : 1 ≤ c) :
    ∀ (ws : List (Nat × String)) (rows : List (List String)) (idx : Nat),
      (∀ w ∈ ws, 1 ≤ w.1 ∧ w.1 ≤ rows.length ∧ pyStrip w.2 ≠ "") →
      (∃ t, (idx, t) ∈ ws) →
      readCell ((applyWrites rows c ws).getD (idx - 1) []) c ≠ "" := by
  intro ws
  induction ws with
  | nil =>
      rintro rows idx _ ⟨t, ht⟩
      simp at ht
  | cons w ws ih =>
      rintro rows idx hb ⟨t, ht⟩
      have step : applyWrites rows c (w :: ws) = applyWrites (setCell rows w.1 c w.2) c ws := rfl
      by_cases hmem2 : ∃ t2, (idx, t2) ∈ ws
      · rw [step]
        refine ih (setCell rows w.1 c w.2) idx ?_ hmem2
        intro w2 hw2
        obtain ⟨a1, a2, a3⟩ := hb w2 (List.mem_cons_of_mem _ hw2)
        exact ⟨a1, by rw [setCell_length]; exact a2, a3⟩
      · rcases List.mem_cons.mp ht with heq | hmem
        · have hw1 : w.1 = idx := by rw [← heq]
          have hw2v : w.2 = t := by rw [← heq]
          obtain ⟨b1, b2, b3⟩ := hb w (List.mem_cons_self _ _)
          have hidx1 : 1 ≤ idx := hw1 ▸ b1
          rw [step]
          rw [applyWrites_untouched c ws (setCell rows w.1 c w.2) idx hidx1 ?_]
          · rw [hw1] at b1 b2 ⊢
            rw [getD_setCell_self rows idx c w.2 hidx1 b2]
            rw [readCell_padSet _ c hc]
            exact b3
          · intro w2 hw2
            refine ⟨(hb w2 (List.mem_cons_of_mem _ hw2)).1, fun hcontra => hmem2 ?_⟩
            exact ⟨w2.2, by rw [← hcontra]; exact hw2⟩
        · exact absurd ⟨t, hmem⟩ hmem2

/-- C4: re-running `process` over the same range with `force = false`
immediately after a run in which every row of the range was successfully
written (and with a generator whose outputs never trim to empty, which
`_generate_description` guarantees by validation) processes zero additional
rows: every row is skipped because its description cell is now non-empty,
and the second run returns 0. -/
theorem c4_idempotent (cols : SheetColumns)
    (gen : String → String → Except GenErr String) (writeOk : Nat → Bool)
    (startRow : Nat) (endRow : Option Nat) (rows : List (List String))
    (hdesc : 1 ≤ cols.description)
    (hgen : ∀ a n t, gen a n = Except.ok t → pyStrip t ≠ "")
    (hall : ∀ idx, startRow ≤ idx → endCheckB endRow idx = false → 1 ≤ idx →
      idx ≤ rows.length →
      ∃ t, (idx, t) ∈ (process cols false false gen writeOk startRow endRow none rows).writes) :
    (process cols false false gen writeOk startRow endRow none
        (applyWrites rows cols.description
          (process cols false false gen writeOk startRow endRow none rows).writes)).processed = 0
    ∧ (process cols false false gen writeOk startRow endRow none
        (applyWrites rows cols.description
          (process cols false false gen writeOk startRow endRow none rows).writes)).attempts
      = [] := by
  have hproc : ∀ rws : List (List String),
      process cols false false gen writeOk startRow endRow none rws
        = ⟨0 + (writesSpec cols false startRow endRow gen writeOk 1 rws).length,
           eligibleRowsSpec cols false startRow endRow 1 rws,
           writesSpec cols false startRow endRow gen writeOk 1 rws⟩ := by
    intro rws
    unfold process
    exact processGo_spec cols false gen writeOk startRow endRow rws 1 0
  have hbounds : ∀ w ∈ (process cols false false gen writeOk startRow endRow none rows).writes,
      1 ≤ w.1 ∧ w.1 ≤ rows.length ∧ pyStrip w.2 ≠ "" := by
    rintro ⟨j, t⟩ hw
    have hw2 : (j, t) ∈ writesSpec cols false startRow endRow gen writeOk 1 rows := by
      rw [hproc rows] at hw
      exact hw
    obtain ⟨hj1, hj2, _, a, n, hok⟩ :=
      writesSpec_mem cols false startRow endRow gen writeOk rows 1 j t hw2
    exact ⟨hj1, by omega, hgen a n t hok⟩
  have hlen2 : (applyWrites rows cols.description
      (process cols false false gen writeOk startRow endRow none rows).writes).length
      = rows.length := applyWrites_length cols.description _ rows
  have hdesc2 : ∀ idx, startRow ≤ idx → endCheckB endRow idx = false → 1 ≤ idx →
      idx ≤ rows.length →
      readCell ((applyWrites rows cols.description
        (process cols false false gen writeOk startRow endRow none rows).writes).getD
          (idx - 1) []) cols.description ≠ "" := by
    intro idx hs he h1 h2
    exact applyWrites_written cols.description hdesc _ rows idx hbounds (hall idx hs he h1 h2)
  have hfalse : ∀ j, 1 ≤ j → j ≤ rows.length →
      rowEligible cols false startRow endRow j
        ((applyWrites rows cols.description
          (process cols false false gen writeOk startRow endRow none rows).writes).getD
            (j - 1) []) = false := by
    intro j h1 h2
    by_cases hs : startRow ≤ j
    · by_cases he : endCheckB endRow j = true
      · simp [rowEligible, he]
      · have hef : endCheckB endRow j = false := by
          revert he
          cases endCheckB endRow j <;> simp
        have hne := hdesc2 j hs hef h1 h2
        cases hrE : rowEligible cols false startRow endRow j
            ((applyWrites rows cols.description
              (process cols false false gen writeOk startRow endRow none rows).writes).getD
                (j - 1) []) with
        | false => rfl
        | true =>
            simp only [rowEligible, Bool.and_eq_true, Bool.or_eq_true, decide_eq_true_eq,
              Bool.not_eq_true', Bool.false_eq_true, or_false] at hrE
            exact absurd hrE.2 hne
    · simp [rowEligible, hs]
  have hel : eligibleRowsSpec cols false startRow endRow 1
      (applyWrites rows cols.description
        (process cols false false gen writeOk startRow endRow none rows).writes) = [] := by
    rw [List.eq_nil_iff_forall_not_mem]
    intro j hj
    rw [eligibleRowsSpec_mem] at hj
    obtain ⟨hj1, hj2, hj3⟩ := hj
    rw [hfalse j hj1 (by omega)] at hj3
    cases hj3
  have hwr : writesSpec cols false startRow endRow gen writeOk 1
      (applyWrites rows cols.description
        (process cols false false gen writeOk startRow endRow none rows).writes) = [] := by
    rw [List.eq_nil_iff_forall_not_mem]
    rintro ⟨j, t⟩ hj
    obtain ⟨hj1, hj2, hj3, _⟩ := writesSpec_mem cols false startRow endRow gen writeOk _ 1 j t hj
    rw [hfalse j hj1 (by omega)] at hj3
    cases hj3
  have hrun2 : process cols false false gen writeOk startRow endRow none
      (applyWrites rows cols.description
        (process cols false false gen writeOk startRow endRow none rows).writes)
      = ⟨0, [], []⟩ := by
    rw [hproc, hel, hwr]
    rfl
  rw [hrun2]
  exact ⟨rfl, rfl⟩

/-- C4, witness: a one-row sheet whose row is written on the first run; the
second run processes nothing. -/
theorem c4_idempotent_witness :
    (process ⟨none, 1, 2⟩ false false (fun _ _ => Except.ok "Описание болта") (fun _ => true)
        1 none none
        (applyWrites [["Болт", ""]] (SheetColumns.mk none 1 2).description
          (process ⟨none, 1, 2⟩ false false (fun _ _ => Except.ok "Описание болта")
            (fun _ => true) 1 none none [["Болт", ""]]).writes)).processed = 0
    ∧ (process ⟨none, 1, 2⟩ false false (fun _ _ => Except.ok "Описание болта") (fun _ => true)
        1 none none
        (applyWrites [["Болт", ""]] (SheetColumns.mk none 1 2).description
          (process ⟨none, 1, 2⟩ false false (fun _ _ => Except.ok "Описание болта")
            (fun _ => true) 1 none none [["Болт", ""]]).writes)).attempts = [] :=
  c4_idempotent ⟨none, 1, 2⟩ (fun _ _ => Except.ok "Описание болта") (fun _ => true) 1 none
    [["Болт", ""]] (by decide)
    (fun a n t h => by
      injection h with h2
      subst h2
      decide)
    (fun idx h1 h2 h3 h4 => by
      have hidx : idx = 1 := Nat.le_antisymm h4 h3
      subst hidx
      exact ⟨"Описание болта", by decide⟩)

end GenDesc
